import Mathlib

/-!
Shallow embedding of the LRU cache layer of
`internal/tsc_wrapped/tsconfig.js` (classes `Cache`, `FileCache`,
`ProgramAndFileCache`, `CachedFileLoader`, `UncachedFileLoader`).

Modelling conventions:
* A JavaScript `Map` is an association list in insertion order
  (`Map` iterates keys in insertion order; `set` of an existing key
  keeps its position; `delete` + `set` moves a key to the end).
* `numberKeysToDrop = originalSize / 2` in the source is IEEE double
  division.  For every cache size `n < 2^52` the double holding `n / 2`
  and all values reached from it by repeated `- 1` are exact halves, so
  double arithmetic coincides with exact rational arithmetic here; the
  counter is therefore modelled in `ℚ`.
* `process.memoryUsage().heapUsed > this.maxMemoryUsage`
  (`shouldFreeMemory`) is an external observation; it is passed to the
  operations that consult it as an explicit boolean argument.
* Cached values are `ts.SourceFile` objects, hence always truthy; the
  only falsy JavaScript value that actually reaches a truthiness test
  in this code is the empty digest string in `getLastDigest`.
-/

namespace TscWrapped

/-- JavaScript `Map` with string keys: entries in insertion order. -/
abbrev JsMap (V : Type) := List (String × V)

/-- `Map.prototype.get`. -/
def jsGet (k : String) : JsMap V → Option V
  | [] => none
  | (a, v) :: rest => if a = k then some v else jsGet k rest

/-- `Map.prototype.set`: overwrite in place if present, else append. -/
def jsSet (k : String) (v : V) : JsMap V → JsMap V
  | [] => [(k, v)]
  | (a, w) :: rest => if a = k then (a, v) :: rest else (a, w) :: jsSet k v rest

/-- `Map.prototype.delete`. -/
def jsDelete (k : String) : JsMap V → JsMap V
  | [] => []
  | (a, w) :: rest => if a = k then rest else (a, w) :: jsDelete k rest

/-- `Map.prototype.has`. -/
def jsHas (k : String) (m : JsMap V) : Bool := (jsGet k m).isSome

/-- `Map.prototype.keys`, in insertion order. -/
def jsKeys (m : JsMap V) : List String := m.map Prod.fst

/-- The `stats` record of class `Cache`. -/
structure CacheStats where
  reads : Nat
  hits : Nat
  evictions : Nat
deriving Repr, DecidableEq

/-- Class `Cache<T>`: `map` plus `stats` (the `name`/`debug` fields only
feed logging and are dropped). -/
structure Cache (V : Type) where
  map : JsMap V
  stats : CacheStats
deriving Repr, DecidableEq

/-- The `Cache` constructor: empty map, zeroed stats. -/
def Cache.init : Cache V := ⟨[], ⟨0, 0, 0⟩⟩

/-- `Cache.set`. -/
def Cache.set (c : Cache V) (key : String) (value : V) : Cache V :=
  { c with map := jsSet key value c.map }

/-- `Cache.get(key, updateCache)`: always `stats.reads++`; on a hit with
`updateCache` true, `stats.hits++` and the entry is deleted and
re-inserted (moved to the most recently used position). -/
def Cache.get (c : Cache V) (key : String) (updateCache : Bool) :
    Option V × Cache V :=
  let stats1 : CacheStats := { c.stats with reads := c.stats.reads + 1 }
  let entry := jsGet key c.map
  if updateCache then
    match entry with
    | some e =>
        (entry, { map := jsSet key e (jsDelete key c.map),
                  stats := { stats1 with hits := stats1.hits + 1 } })
    | none => (entry, { c with stats := stats1 })
  else
    (entry, { c with stats := stats1 })

/-- `Cache.delete`. -/
def Cache.delete (c : Cache V) (key : String) : Cache V :=
  { c with map := jsDelete key c.map }

/-- `unevictableKeys && unevictableKeys.has(key)`; `unevictableKeys`
absent (`undefined`) pins nothing. -/
def unevictable (pins : Option (List String)) (key : String) : Bool :=
  match pins with
  | none => false
  | some l => l.contains key

/-- The `for (const key of this.map.keys())` loop of `Cache.evict`.
Only the key currently visited is ever deleted, so iterating the list
of keys captured at loop entry is the `Map` iterator behaviour. -/
def evictLoop (pins : Option (List String)) :
    List String → ℚ → JsMap V → JsMap V
  | [], _, m => m
  | key :: rest, numberKeysToDrop, m =>
    if numberKeysToDrop = 0 then m
    else if unevictable pins key then evictLoop pins rest numberKeysToDrop m
    else evictLoop pins rest (numberKeysToDrop - 1) (jsDelete key m)

/-- `Cache.evict(unevictableKeys)`: `numberKeysToDrop` starts at
`originalSize / 2` in double arithmetic (no flooring in the source),
returns `originalSize - map.size` and adds it to `stats.evictions`. -/
def Cache.evict (c : Cache V) (unevictableKeys : Option (List String)) :
    Nat × Cache V :=
  let originalSize := c.map.length
  let numberKeysToDrop : ℚ := (originalSize : ℚ) / 2
  if numberKeysToDrop = 0 then (0, c)
  else
    let m := evictLoop unevictableKeys (jsKeys c.map) numberKeysToDrop c.map
    let keysDropped := originalSize - m.length
    (keysDropped,
      { map := m,
        stats := { c.stats with evictions := c.stats.evictions + keysDropped } })

/-- `Cache.resetStats`. -/
def Cache.resetStats (c : Cache V) : Cache V := { c with stats := ⟨0, 0, 0⟩ }

/-- A cache entry of `FileCache`: `{digest, value}`. -/
structure FileCacheEntry (V : Type) where
  digest : String
  value : V
deriving Repr, DecidableEq

/-- Class `FileCache<T>`: the inner `Cache`, the `lastDigests` map and
the sticky `cannotEvict` flag.  `maxMemoryUsage` only feeds
`shouldFreeMemory`, which is modelled as the explicit boolean passed to
the operations that call it. -/
structure FileCache (V : Type) where
  fileCache : Cache (FileCacheEntry V)
  lastDigests : JsMap String
  cannotEvict : Bool
deriving Repr, DecidableEq

/-- The `FileCache` constructor. -/
def FileCache.init : FileCache V := ⟨Cache.init, [], false⟩

/-- The `for (const [filePath, newDigest] of digests.entries())` loop of
`FileCache.updateCache`: probe with `get(filePath, false)` and delete
entries whose digest differs from the new one. -/
def updateCacheScan : List (String × String) → FileCache V → FileCache V
  | [], fc => fc
  | (filePath, newDigest) :: rest, fc =>
    let r := fc.fileCache.get filePath false
    let fc1 : FileCache V := { fc with fileCache := r.2 }
    let fc2 : FileCache V :=
      match r.1 with
      | some entry =>
          if entry.digest ≠ newDigest then
            { fc1 with fileCache := fc1.fileCache.delete filePath }
          else fc1
      | none => fc1
    updateCacheScan rest fc2

/-- `FileCache.updateCache(digests)`: replaces `lastDigests`, clears
`cannotEvict`, then proactively drops stale entries. -/
def FileCache.updateCache (fc : FileCache V) (digests : List (String × String)) :
    FileCache V :=
  updateCacheScan digests { fc with lastDigests := digests, cannotEvict := false }

/-- The error thrown by `getLastDigest`: its message carries the
requested path and the known paths. -/
structure MissingDigestError where
  filePath : String
  knownPaths : List String
deriving Repr, DecidableEq

/-- `FileCache.getLastDigest(filePath)`: `if (!digest) throw`, where the
digest read from `lastDigests` is falsy when absent (`undefined`) or the
empty string. -/
def FileCache.getLastDigest (fc : FileCache V) (filePath : String) :
    Except MissingDigestError String :=
  match jsGet filePath fc.lastDigests with
  | none => .error ⟨filePath, jsKeys fc.lastDigests⟩
  | some digest =>
      if digest = "" then .error ⟨filePath, jsKeys fc.lastDigests⟩
      else .ok digest

/-- `FileCache.getCache(filePath)`: a `get` with the recency update,
projecting the entry (an object, hence truthy when present) to its
`value`. -/
def FileCache.getCache (fc : FileCache V) (filePath : String) :
    Option V × FileCache V :=
  let r := fc.fileCache.get filePath true
  (r.1.map FileCacheEntry.value, { fc with fileCache := r.2 })

/-- `FileCache.maybeFreeMemory`: no-op unless `shouldFreeMemory()` holds
and `cannotEvict` is clear; evicts with `lastDigests` as the pin set and
sets `cannotEvict` when nothing could be dropped. -/
def FileCache.maybeFreeMemory (fc : FileCache V) (shouldFreeMemory : Bool) :
    Nat × FileCache V :=
  if !shouldFreeMemory || fc.cannotEvict then (0, fc)
  else
    let r := fc.fileCache.evict (some (jsKeys fc.lastDigests))
    let fc1 : FileCache V := { fc with fileCache := r.2 }
    if r.1 = 0 then (r.1, { fc1 with cannotEvict := true })
    else (r.1, fc1)

/-- `FileCache.putCache(filePath, entry)`: frees memory first, then
stores. -/
def FileCache.putCache (fc : FileCache V) (shouldFreeMemory : Bool)
    (filePath : String) (entry : FileCacheEntry V) : FileCache V :=
  let r := fc.maybeFreeMemory shouldFreeMemory
  { r.2 with fileCache := r.2.fileCache.set filePath entry }

/-- `FileCache.isKnownInput(filePath)`: `lastDigests.has`. -/
def FileCache.isKnownInput (fc : FileCache V) (filePath : String) : Bool :=
  jsHas filePath fc.lastDigests

/-- `FileCache.inCache(filePath)`: `!!this.getCache(filePath)`; cached
values are `ts.SourceFile` objects, hence truthy exactly when present. -/
def FileCache.inCache (fc : FileCache V) (filePath : String) :
    Bool × FileCache V :=
  let r := fc.getCache filePath
  (r.1.isSome, r.2)

/-- `FileCache.resetStats`. -/
def FileCache.resetStats (fc : FileCache V) : FileCache V :=
  { fc with fileCache := fc.fileCache.resetStats }

/-- Class `ProgramAndFileCache` extends `FileCache` with a program
cache. -/
structure ProgramAndFileCache (V P : Type) extends FileCache V where
  programCache : Cache P
deriving Repr, DecidableEq

/-- `ProgramAndFileCache.maybeFreeMemory` (the override): evict programs
first (no pin set), fall back to `super.maybeFreeMemory()` only when
that dropped nothing. -/
def ProgramAndFileCache.maybeFreeMemory (pc : ProgramAndFileCache V P)
    (shouldFreeMemory : Bool) : Nat × ProgramAndFileCache V P :=
  if !shouldFreeMemory then (0, pc)
  else
    let r := pc.programCache.evict none
    let pc1 : ProgramAndFileCache V P := { pc with programCache := r.2 }
    if r.1 > 0 then (r.1, pc1)
    else
      let s := pc1.toFileCache.maybeFreeMemory shouldFreeMemory
      (s.1, { pc1 with toFileCache := s.2 })

/-- `ts.createSourceFile(fileName, sourceText, languageVersion, true)`,
as the abstract record of its arguments (parsing is deterministic in its
inputs). -/
structure SourceFile where
  fileName : String
  text : String
  languageVersion : Nat
  setParentNodes : Bool
deriving Repr, DecidableEq

def createSourceFile (fileName sourceText : String) (langVer : Nat) : SourceFile :=
  ⟨fileName, sourceText, langVer, true⟩

/-- `fs.readFileSync(filePath, 'utf8')` over an abstract disk. -/
abbrev Disk := String → String

/-- The externally visible actions of a `loadFile` call, in program
order. -/
inductive LoadEvent where
  | diskRead (filePath : String)
  | parsed (fileName : String)
  | stored (filePath : String)
deriving Repr, DecidableEq

/-- Result of `CachedFileLoader.loadFile`: the returned source file (or
the thrown error), the cache state afterwards, and the actions
performed. -/
structure LoadResult where
  result : Except MissingDigestError SourceFile
  cache : FileCache SourceFile
  events : List LoadEvent

/-- `CachedFileLoader.loadFile`: consult the cache; on a miss read from
disk and parse, then build the entry (this is where `getLastDigest` can
throw, after the read and the parse and before any store) and
`putCache` it. -/
def CachedFileLoader.loadFile (cache : FileCache SourceFile) (disk : Disk)
    (shouldFreeMemory : Bool) (fileName filePath : String) (langVer : Nat) :
    LoadResult :=
  let r := cache.getCache filePath
  match r.1 with
  | some sourceFile => ⟨.ok sourceFile, r.2, []⟩
  | none =>
    let sourceText := disk filePath
    let sourceFile := createSourceFile fileName sourceText langVer
    match r.2.getLastDigest filePath with
    | .error e => ⟨.error e, r.2, [.diskRead filePath, .parsed fileName]⟩
    | .ok digest =>
        ⟨.ok sourceFile,
          r.2.putCache shouldFreeMemory filePath ⟨digest, sourceFile⟩,
          [.diskRead filePath, .parsed fileName, .stored filePath]⟩

/-- `UncachedFileLoader.loadFile`: read and parse, no cache. -/
def UncachedFileLoader.loadFile (disk : Disk) (fileName filePath : String)
    (langVer : Nat) : SourceFile :=
  createSourceFile fileName (disk filePath) langVer

/-- One observable operation on a `Cache`, for statements about
arbitrary operation sequences. -/
inductive CacheOp (V : Type) where
  | setOp (key : String) (value : V)
  | getOp (key : String) (updateCache : Bool)
  | deleteOp (key : String)
  | evictOp (pins : Option (List String))
  | resetStatsOp

/-- Apply one operation (dropping returned values). -/
def CacheOp.apply (c : Cache V) : CacheOp V → Cache V
  | .setOp k v => c.set k v
  | .getOp k u => (c.get k u).2
  | .deleteOp k => c.delete k
  | .evictOp pins => (c.evict pins).2
  | .resetStatsOp => c.resetStats

/-- Run a sequence of operations from a state. -/
def runOps (c : Cache V) (ops : List (CacheOp V)) : Cache V :=
  ops.foldl CacheOp.apply c

/-! ### Lemmas about the `JsMap` model -/

theorem jsGet_jsDelete_ne {p k : String} (h : p ≠ k) :
    ∀ m : JsMap V, jsGet p (jsDelete k m) = jsGet p m := by
  intro m
  induction m with
  | nil => rfl
  | cons hd rest ih =>
      obtain ⟨a, w⟩ := hd
      by_cases hak : a = k
      · subst hak
        have hap : ¬ a = p := fun hc => h (hc ▸ rfl)
        simp [jsDelete, jsGet, hap]
      · by_cases hap : a = p
        · subst hap
          simp [jsDelete, jsGet, hak]
        · simp [jsDelete, jsGet, hak, hap, ih]

theorem jsGet_jsDelete_none {p k : String} :
    ∀ m : JsMap V, jsGet p m = none → jsGet p (jsDelete k m) = none := by
  intro m
  induction m with
  | nil => intro; rfl
  | cons hd rest ih =>
      obtain ⟨a, w⟩ := hd
      intro h
      by_cases hap : a = p
      · simp [jsGet, hap] at h
      · simp only [jsGet, if_neg hap] at h
        by_cases hak : a = k
        · simpa only [jsDelete, if_pos hak] using h
        · simp only [jsDelete, if_neg hak, jsGet, if_neg hap]
          exact ih h

theorem jsDelete_sublist (k : String) :
    ∀ m : JsMap V, List.Sublist (jsDelete k m) m := by
  intro m
  induction m with
  | nil => exact List.Sublist.refl _
  | cons hd rest ih =>
      obtain ⟨a, w⟩ := hd
      by_cases hak : a = k
      · simpa only [jsDelete, if_pos hak] using List.sublist_cons_self _ _
      · simpa only [jsDelete, if_neg hak] using List.Sublist.cons₂ _ ih

theorem jsDelete_length_le (k : String) (m : JsMap V) :
    (jsDelete k m).length ≤ m.length :=
  (jsDelete_sublist k m).length_le

theorem mem_jsKeys_of_mem {P : String} {D : V} {m : JsMap V}
    (h : (P, D) ∈ m) : P ∈ jsKeys m :=
  List.mem_map.mpr ⟨(P, D), h, rfl⟩

theorem jsGet_eq_none_of_not_mem {P : String} :
    ∀ m : JsMap V, P ∉ jsKeys m → jsGet P m = none := by
  intro m
  induction m with
  | nil => intro; rfl
  | cons hd rest ih =>
      obtain ⟨a, w⟩ := hd
      intro h
      simp only [jsKeys, List.map_cons, List.mem_cons, not_or] at h
      have hap : ¬ a = P := fun hc => h.1 hc.symm
      simp only [jsGet, if_neg hap]
      exact ih h.2

theorem jsGet_some_mem {P : String} {D : V} :
    ∀ m : JsMap V, jsGet P m = some D → (P, D) ∈ m := by
  intro m
  induction m with
  | nil => intro h; simp [jsGet] at h
  | cons hd rest ih =>
      obtain ⟨a, w⟩ := hd
      intro h
      by_cases hap : a = P
      · subst hap
        simp [jsGet] at h
        subst h
        exact List.mem_cons_self _ _
      · simp only [jsGet, if_neg hap] at h
        exact List.mem_cons_of_mem _ (ih h)

theorem jsGet_of_mem_nodup {P : String} {D : V} :
    ∀ m : JsMap V, (jsKeys m).Nodup → (P, D) ∈ m → jsGet P m = some D := by
  intro m
  induction m with
  | nil => intro _ h; simp at h
  | cons hd rest ih =>
      obtain ⟨a, w⟩ := hd
      intro hnd hmem
      simp only [jsKeys, List.map_cons, List.nodup_cons] at hnd
      rcases List.mem_cons.mp hmem with heq | hrest
      · rw [Prod.mk.injEq] at heq
        obtain ⟨h1, h2⟩ := heq
        subst h1; subst h2
        simp [jsGet]
      · have haP : ¬ a = P := by
          intro hc
          subst hc
          exact hnd.1 (mem_jsKeys_of_mem hrest)
        simp only [jsGet, if_neg haP]
        exact ih hnd.2 hrest

theorem jsGet_jsDelete_self_of_nodup {k : String} :
    ∀ m : JsMap V, (jsKeys m).Nodup → jsGet k (jsDelete k m) = none := by
  intro m
  induction m with
  | nil => intro; rfl
  | cons hd rest ih =>
      obtain ⟨a, w⟩ := hd
      intro hnd
      simp only [jsKeys, List.map_cons, List.nodup_cons] at hnd
      by_cases hak : a = k
      · subst hak
        simp only [jsDelete, if_pos rfl]
        exact jsGet_eq_none_of_not_mem rest hnd.1
      · simp only [jsDelete, if_neg hak, jsGet, if_neg hak]
        exact ih hnd.2

theorem jsKeys_jsDelete_nodup {k : String} {m : JsMap V}
    (h : (jsKeys m).Nodup) : (jsKeys (jsDelete k m)).Nodup :=
  ((jsDelete_sublist k m).map Prod.fst).nodup h

theorem Cache.get_fst (c : Cache V) (k : String) (u : Bool) :
    (c.get k u).1 = jsGet k c.map := by
  cases u <;> simp only [Cache.get] <;> cases jsGet k c.map <;> simp

theorem Cache.get_false_snd (c : Cache V) (k : String) :
    (c.get k false).2 =
      { c with stats := { c.stats with reads := c.stats.reads + 1 } } := rfl

theorem Cache.get_map_miss {c : Cache V} {k : String}
    (h : jsGet k c.map = none) : (c.get k true).2.map = c.map := by
  simp [Cache.get, h]

theorem Cache.get_map_hit {c : Cache V} {k : String} {e : V}
    (h : jsGet k c.map = some e) :
    (c.get k true).2.map = jsSet k e (jsDelete k c.map) := by
  simp [Cache.get, h]

theorem Cache.get_reads (c : Cache V) (k : String) (u : Bool) :
    (c.get k u).2.stats.reads = c.stats.reads + 1 := by
  cases u <;> simp only [Cache.get] <;> cases jsGet k c.map <;> simp

theorem Cache.get_hits_hit {c : Cache V} {k : String} {e : V}
    (h : jsGet k c.map = some e) :
    (c.get k true).2.stats.hits = c.stats.hits + 1 := by
  simp [Cache.get, h]

theorem Cache.get_hits_le (c : Cache V) (k : String) (u : Bool) :
    (c.get k u).2.stats.hits ≤ c.stats.hits + 1 := by
  cases u <;> simp only [Cache.get] <;> cases jsGet k c.map <;> simp

/-! ### Lemmas about `evictLoop` and `Cache.evict` -/

theorem jsDelete_head (k : String) (v : V) (rest : JsMap V) :
    jsDelete k ((k, v) :: rest) = rest := by
  simp [jsDelete]

theorem evictLoop_cons_zero {pins : Option (List String)} {key : String}
    {ks : List String} {n : ℚ} {m : JsMap V} (hn : n = 0) :
    evictLoop pins (key :: ks) n m = m := by
  simp [evictLoop, hn]

theorem evictLoop_cons_pinned {pins : Option (List String)} {key : String}
    {ks : List String} {n : ℚ} {m : JsMap V} (hn : ¬ n = 0)
    (hpin : unevictable pins key = true) :
    evictLoop pins (key :: ks) n m = evictLoop pins ks n m := by
  simp [evictLoop, hn, hpin]

theorem evictLoop_cons_unpinned {pins : Option (List String)} {key : String}
    {ks : List String} {n : ℚ} {m : JsMap V} (hn : ¬ n = 0)
    (hpin : unevictable pins key = false) :
    evictLoop pins (key :: ks) n m = evictLoop pins ks (n - 1) (jsDelete key m) := by
  simp [evictLoop, hn, hpin]

theorem evictLoop_jsGet_of_mem_pins {pins : List String} {K : String}
    (hK : K ∈ pins) :
    ∀ (ks : List String) (n : ℚ) (m : JsMap V),
      jsGet K (evictLoop (some pins) ks n m) = jsGet K m := by
  intro ks
  induction ks with
  | nil => intro n m; rfl
  | cons key rest ih =>
      intro n m
      by_cases hn : n = 0
      · rw [evictLoop_cons_zero hn]
      · cases hpin : unevictable (some pins) key with
        | true =>
            rw [evictLoop_cons_pinned hn hpin]
            exact ih n m
        | false =>
            have hkey : key ∉ pins := by
              simpa [unevictable] using hpin
            have hne : K ≠ key := fun hc => hkey (hc ▸ hK)
            rw [evictLoop_cons_unpinned hn hpin, ih (n - 1) (jsDelete key m)]
            exact jsGet_jsDelete_ne hne m

theorem evictLoop_all_pinned {pins : Option (List String)} :
    ∀ (ks : List String) (n : ℚ) (m : JsMap V),
      (∀ k ∈ ks, unevictable pins k = true) →
      evictLoop pins ks n m = m := by
  intro ks
  induction ks with
  | nil => intro n m _; rfl
  | cons key rest ih =>
      intro n m hall
      by_cases hn : n = 0
      · rw [evictLoop_cons_zero hn]
      · rw [evictLoop_cons_pinned hn (hall key (List.mem_cons_self _ _))]
        exact ih n m (fun k hk => hall k (List.mem_cons_of_mem _ hk))

theorem evictLoop_length_le {pins : Option (List String)} :
    ∀ (ks : List String) (n : ℚ) (m : JsMap V),
      (evictLoop pins ks n m).length ≤ m.length := by
  intro ks
  induction ks with
  | nil => intro n m; exact Nat.le_refl _
  | cons key rest ih =>
      intro n m
      by_cases hn : n = 0
      · rw [evictLoop_cons_zero hn]
      · cases hpin : unevictable pins key with
        | true =>
            rw [evictLoop_cons_pinned hn hpin]
            exact ih n m
        | false =>
            rw [evictLoop_cons_unpinned hn hpin]
            exact (ih (n - 1) (jsDelete key m)).trans (jsDelete_length_le key m)

theorem natCast_half_eq_zero_iff (n : Nat) : ((n : ℚ) / 2 = 0) ↔ n = 0 := by
  rw [div_eq_zero_iff]
  norm_num

theorem Cache.evict_none_pos (c : Cache V) (h : c.map ≠ []) :
    1 ≤ (c.evict none).1 := by
  obtain ⟨hd, rest, hm⟩ := List.exists_cons_of_ne_nil h
  obtain ⟨k, v⟩ := hd
  have hlen : c.map.length = rest.length + 1 := by rw [hm]; rfl
  have hnz : ¬ ((c.map.length : ℚ) / 2 = 0) := by
    rw [natCast_half_eq_zero_iff, hlen]
    exact Nat.succ_ne_zero _
  have hle :
      (evictLoop none (jsKeys c.map) ((c.map.length : ℚ) / 2) c.map).length
        ≤ rest.length := by
    conv_lhs => rw [hm]
    rw [show jsKeys ((k, v) :: rest) = k :: jsKeys rest from rfl,
      evictLoop_cons_unpinned (by rw [← hm]; exact hnz)
        (by simp [unevictable]),
      jsDelete_head]
    exact evictLoop_length_le _ _ _
  simp only [Cache.evict, if_neg hnz]
  omega

/-! ### Lemmas about `updateCacheScan` -/

/-- The effect of one `updateCache` loop step on the underlying map,
with the `reads` bump factored out. -/
def scanStepMap (p nd : String) (m : JsMap (FileCacheEntry V)) :
    JsMap (FileCacheEntry V) :=
  match jsGet p m with
  | some entry => if entry.digest ≠ nd then jsDelete p m else m
  | none => m

theorem updateCacheScan_cons_eq (p nd : String) (rest : List (String × String))
    (fc : FileCache V) :
    updateCacheScan ((p, nd) :: rest) fc =
    updateCacheScan rest
      { fc with fileCache :=
          { map := scanStepMap p nd fc.fileCache.map,
            stats := { fc.fileCache.stats with
                        reads := fc.fileCache.stats.reads + 1 } } } := by
  simp only [updateCacheScan, Cache.get, Cache.delete, scanStepMap]
  cases hg : jsGet p fc.fileCache.map with
  | none => simp [hg]
  | some entry =>
      by_cases hd : entry.digest = nd
      · simp [hg, hd]
      · simp [hg, hd]

theorem scanStepMap_jsGet_none {P p nd : String} {m : JsMap (FileCacheEntry V)}
    (h : jsGet P m = none) : jsGet P (scanStepMap p nd m) = none := by
  simp only [scanStepMap]
  cases hg : jsGet p m with
  | none => exact h
  | some entry =>
      by_cases hdig : entry.digest = nd
      · simp [hdig, h]
      · simp only [hdig, ne_eq, not_false_eq_true, if_true]
        exact jsGet_jsDelete_none _ h

theorem scanStepMap_jsGet_ne {P p nd : String} {m : JsMap (FileCacheEntry V)}
    (hne : ¬ p = P) : jsGet P (scanStepMap p nd m) = jsGet P m := by
  simp only [scanStepMap]
  cases hg : jsGet p m with
  | none => rfl
  | some entry =>
      by_cases hdig : entry.digest = nd
      · simp [hdig]
      · simp only [hdig, ne_eq, not_false_eq_true, if_true]
        exact jsGet_jsDelete_ne (fun hc => hne hc.symm) m

theorem scanStepMap_nodup {p nd : String} {m : JsMap (FileCacheEntry V)}
    (h : (jsKeys m).Nodup) : (jsKeys (scanStepMap p nd m)).Nodup := by
  simp only [scanStepMap]
  cases hg : jsGet p m with
  | none => exact h
  | some entry =>
      by_cases hdig : entry.digest = nd
      · simp [hdig, h]
      · simp only [hdig, ne_eq, not_false_eq_true, if_true]
        exact jsKeys_jsDelete_nodup h

theorem updateCacheScan_lastDigests :
    ∀ (ds : List (String × String)) (fc : FileCache V),
      (updateCacheScan ds fc).lastDigests = fc.lastDigests := by
  intro ds
  induction ds with
  | nil => intro fc; rfl
  | cons hd rest ih =>
      obtain ⟨p, nd⟩ := hd
      intro fc
      rw [updateCacheScan_cons_eq, ih]

theorem updateCacheScan_cannotEvict :
    ∀ (ds : List (String × String)) (fc : FileCache V),
      (updateCacheScan ds fc).cannotEvict = fc.cannotEvict := by
  intro ds
  induction ds with
  | nil => intro fc; rfl
  | cons hd rest ih =>
      obtain ⟨p, nd⟩ := hd
      intro fc
      rw [updateCacheScan_cons_eq, ih]

theorem updateCache_lastDigests (fc : FileCache V)
    (ds : List (String × String)) :
    (fc.updateCache ds).lastDigests = ds := by
  rw [FileCache.updateCache, updateCacheScan_lastDigests]

theorem updateCache_cannotEvict (fc : FileCache V)
    (ds : List (String × String)) :
    (fc.updateCache ds).cannotEvict = false := by
  rw [FileCache.updateCache, updateCacheScan_cannotEvict]

theorem updateCacheScan_map_none {P : String} :
    ∀ (ds : List (String × String)) (fc : FileCache V),
      jsGet P fc.fileCache.map = none →
      jsGet P (updateCacheScan ds fc).fileCache.map = none := by
  intro ds
  induction ds with
  | nil => intro fc h; exact h
  | cons hd rest ih =>
      obtain ⟨p, nd⟩ := hd
      intro fc h
      rw [updateCacheScan_cons_eq]
      exact ih _ (scanStepMap_jsGet_none h)

theorem updateCacheScan_map_preserve {P : String} {D1 : String} {v : V} :
    ∀ (ds : List (String × String)) (fc : FileCache V),
      (∀ D, (P, D) ∈ ds → D = D1) →
      jsGet P fc.fileCache.map = some ⟨D1, v⟩ →
      jsGet P (updateCacheScan ds fc).fileCache.map = some ⟨D1, v⟩ := by
  intro ds
  induction ds with
  | nil => intro fc _ h; exact h
  | cons hd rest ih =>
      obtain ⟨p, nd⟩ := hd
      intro fc hP h
      rw [updateCacheScan_cons_eq]
      refine ih _ (fun D hD => hP D (List.mem_cons_of_mem _ hD)) ?_
      by_cases hpP : p = P
      · subst hpP
        have hnd : nd = D1 := hP nd (List.mem_cons_self _ _)
        subst hnd
        simp [scanStepMap, h]
      · rw [scanStepMap_jsGet_ne hpP]
        exact h

theorem updateCacheScan_map_delete {P : String} {D2 : String} :
    ∀ (ds : List (String × String)) (fc : FileCache V) (e : FileCacheEntry V),
      (jsKeys fc.fileCache.map).Nodup →
      (jsKeys ds).Nodup →
      (P, D2) ∈ ds →
      jsGet P fc.fileCache.map = some e →
      e.digest ≠ D2 →
      jsGet P (updateCacheScan ds fc).fileCache.map = none := by
  intro ds
  induction ds with
  | nil => intro fc e _ _ hmem _ _; simp at hmem
  | cons hd rest ih =>
      obtain ⟨p, nd⟩ := hd
      intro fc e hndm hndds hmem h hne
      simp only [jsKeys, List.map_cons, List.nodup_cons] at hndds
      rw [updateCacheScan_cons_eq]
      by_cases hpP : p = P
      · subst hpP
        have hnd : nd = D2 := by
          rcases List.mem_cons.mp hmem with heq | hrest
          · exact (congrArg Prod.snd heq).symm
          · exact absurd (mem_jsKeys_of_mem hrest) hndds.1
        subst hnd
        apply updateCacheScan_map_none
        simp [scanStepMap, h, hne]
        exact jsGet_jsDelete_self_of_nodup _ hndm
      · have hrest : (P, D2) ∈ rest := by
          rcases List.mem_cons.mp hmem with heq | hr
          · exact absurd (congrArg Prod.fst heq).symm hpP
          · exact hr
        refine ih _ e (scanStepMap_nodup hndm) hndds.2 hrest ?_ hne
        rw [scanStepMap_jsGet_ne hpP]
        exact h

/-! ### Claim theorems -/

/-- Concrete three-entry store (keys `a`, `b`, `c`, least recently used
first) with zeroed stats, no pinned keys. -/
def oddStore : Cache Nat := ⟨[("a", 1), ("b", 2), ("c", 3)], ⟨0, 0, 0⟩⟩

/-- Concrete one-entry store with zeroed stats, no pinned keys. -/
def oneStore : Cache Nat := ⟨[("d", 4)], ⟨0, 0, 0⟩⟩

/-- C1: the claim says `evict()` on an unpinned store of size N removes
`floor(N/2)` entries for N > 1 and is a no-op for N ≤ 1.  The code
computes `numberKeysToDrop = originalSize / 2` in floating point without
flooring, so for odd sizes the `=== 0` exit is never reached: on a
three-entry store `evict()` removes all 3 entries and returns 3 (the
claim says 1), and on a one-entry store it removes the entry and
returns 1 (the claim says 0). -/
theorem claim_C1_evict_odd_divergence :
    (oddStore.evict none).1 = 3 ∧ (oddStore.evict none).2.map = []
    ∧ (oneStore.evict none).1 = 1 ∧ (oneStore.evict none).2.map = [] := by
  refine ⟨?_, ?_, ?_, ?_⟩ <;>
    norm_num [oddStore, oneStore, Cache.evict, evictLoop, jsKeys, jsDelete,
      unevictable]

/-- C4: `evict(pinnedSet)` never removes a key in the pin set (its entry
is looked up unchanged afterwards), and when every key of the store is
pinned it returns 0 and leaves the contents unchanged. -/
theorem claim_C4_pinning (c : Cache V) (pins : List String) (K : String) :
    (K ∈ pins → jsGet K (c.evict (some pins)).2.map = jsGet K c.map)
    ∧ ((∀ k ∈ jsKeys c.map, k ∈ pins) →
        (c.evict (some pins)).1 = 0 ∧ (c.evict (some pins)).2.map = c.map) := by
  by_cases hz : ((c.map.length : ℚ) / 2 = 0)
  · refine ⟨fun _ => ?_, fun _ => ⟨?_, ?_⟩⟩ <;> simp only [Cache.evict, if_pos hz]
  · constructor
    · intro hK
      simp only [Cache.evict, if_neg hz]
      exact evictLoop_jsGet_of_mem_pins hK _ _ _
    · intro hall
      have hloop :
          evictLoop (some pins) (jsKeys c.map) ((c.map.length : ℚ) / 2) c.map
            = c.map := by
        apply evictLoop_all_pinned
        intro k hk
        simp [unevictable, hall k hk]
      simp only [Cache.evict, if_neg hz, hloop]
      exact ⟨Nat.sub_self _, trivial⟩

/-- Concrete fully pinned two-entry store for the C4 witness. -/
def pinStore : Cache Nat := ⟨[("x", 1), ("y", 2)], ⟨0, 0, 0⟩⟩

theorem claim_C4_pinning_witness :
    jsGet "x" ((pinStore.evict (some ["x", "y"])).2.map) = jsGet "x" pinStore.map
    ∧ (pinStore.evict (some ["x", "y"])).1 = 0
    ∧ (pinStore.evict (some ["x", "y"])).2.map = pinStore.map :=
  ⟨(claim_C4_pinning pinStore ["x", "y"] "x").1 (by decide),
   ((claim_C4_pinning pinStore ["x", "y"] "x").2 (by decide)).1,
   ((claim_C4_pinning pinStore ["x", "y"] "x").2 (by decide)).2⟩

/-- C2: for a path `P` cached under digest `D1`, `updateCache` with a
digest map assigning `P ↦ D1` keeps the entry, while `updateCache` with
`P ↦ D2`, `D2 ≠ D1`, deletes it during `updateCache` itself, so a
subsequent `getCache P` returns `none`.  The `Nodup` hypotheses say the
two maps are JavaScript `Map`s (unique keys). -/
theorem claim_C2_digest_coherency (fc : FileCache V)
    (ds : List (String × String)) (P D1 : String) (v : V)
    (hmapN : (jsKeys fc.fileCache.map).Nodup)
    (hdsN : (jsKeys ds).Nodup)
    (hentry : jsGet P fc.fileCache.map = some ⟨D1, v⟩) :
    (jsGet P ds = some D1 →
       jsGet P (fc.updateCache ds).fileCache.map = some ⟨D1, v⟩)
    ∧ (∀ D2, jsGet P ds = some D2 → D2 ≠ D1 →
       jsGet P (fc.updateCache ds).fileCache.map = none
       ∧ ((fc.updateCache ds).getCache P).1 = none) := by
  constructor
  · intro hsame
    have hPfun : ∀ D, (P, D) ∈ ds → D = D1 := by
      intro D hD
      have hget := jsGet_of_mem_nodup ds hdsN hD
      rw [hsame] at hget
      exact (Option.some.inj hget).symm
    rw [FileCache.updateCache]
    exact updateCacheScan_map_preserve ds _ hPfun hentry
  · intro D2 hD2 hne
    have hmem : (P, D2) ∈ ds := jsGet_some_mem ds hD2
    have hdel : jsGet P (fc.updateCache ds).fileCache.map = none := by
      rw [FileCache.updateCache]
      exact updateCacheScan_map_delete ds _ ⟨D1, v⟩ hmapN hdsN hmem hentry
        (fun hc => hne (hc.symm))
    refine ⟨hdel, ?_⟩
    simp [FileCache.getCache, Cache.get_fst, hdel]

/-- Concrete one-entry file cache for the C2 witness. -/
def coherencyCache : FileCache Nat :=
  ⟨⟨[("p", ⟨"d1", 7⟩)], ⟨0, 0, 0⟩⟩, [("p", "d1")], false⟩

theorem claim_C2_digest_coherency_witness :
    jsGet "p" (coherencyCache.updateCache [("p", "d1")]).fileCache.map
      = some ⟨"d1", 7⟩
    ∧ (jsGet "p" (coherencyCache.updateCache [("p", "d2")]).fileCache.map = none
       ∧ ((coherencyCache.updateCache [("p", "d2")]).getCache "p").1 = none) :=
  ⟨(claim_C2_digest_coherency coherencyCache [("p", "d1")] "p" "d1" 7
      (by decide) (by decide) (by decide)).1 (by decide),
   (claim_C2_digest_coherency coherencyCache [("p", "d2")] "p" "d1" 7
      (by decide) (by decide) (by decide)).2 "d2" (by decide) (by decide)⟩

/-- C3: under memory pressure with a non-empty program store,
`ProgramAndFileCache.maybeFreeMemory` evicts from the program store
first; the program eviction always drops at least one entry (nothing is
pinned there), its count is returned, and the file store - entries and
stats alike - is untouched in that pass.  File eviction would run only
had the program eviction dropped nothing. -/
theorem claim_C3_program_before_file (pc : ProgramAndFileCache V P)
    (press : Bool) (hpress : press = true)
    (hprog : pc.programCache.map ≠ [])
    (_hfile : pc.fileCache.map ≠ []) :
    1 ≤ (pc.programCache.evict none).1
    ∧ (pc.maybeFreeMemory press).1 = (pc.programCache.evict none).1
    ∧ (pc.maybeFreeMemory press).2.toFileCache = pc.toFileCache := by
  subst hpress
  have hpos : 1 ≤ (pc.programCache.evict none).1 :=
    Cache.evict_none_pos pc.programCache hprog
  have hgt : (pc.programCache.evict none).1 > 0 := hpos
  refine ⟨hpos, ?_, ?_⟩ <;>
    simp [ProgramAndFileCache.maybeFreeMemory, hgt]

/-- Concrete cache pair with one file entry and one program entry, for
the C3 witness. -/
def bothCache : ProgramAndFileCache Nat Nat :=
  ⟨⟨⟨[("f", ⟨"df", 1⟩)], ⟨0, 0, 0⟩⟩, [], false⟩, ⟨[("t", 10)], ⟨0, 0, 0⟩⟩⟩

theorem claim_C3_program_before_file_witness :
    1 ≤ (bothCache.programCache.evict none).1
    ∧ (bothCache.maybeFreeMemory true).1 = (bothCache.programCache.evict none).1
    ∧ (bothCache.maybeFreeMemory true).2.toFileCache = bothCache.toFileCache :=
  claim_C3_program_before_file bothCache true rfl (by decide) (by decide)

/-- C5: once an eviction pass under pressure drops zero entries the
`cannotEvict` flag is set; while it is set `maybeFreeMemory` returns 0
with the state (file store included) completely unchanged; `getCache`,
`putCache`, `inCache` and `resetStats` keep the flag set, and
`updateCache` always clears it. -/
theorem claim_C5_cannot_evict_guard (fc : FileCache V) (press : Bool)
    (ds : List (String × String)) (p : String) (e : FileCacheEntry V) :
    (fc.cannotEvict = true → fc.maybeFreeMemory press = (0, fc))
    ∧ (press = true → fc.cannotEvict = false →
        (fc.fileCache.evict (some (jsKeys fc.lastDigests))).1 = 0 →
        (fc.maybeFreeMemory press).2.cannotEvict = true)
    ∧ (fc.updateCache ds).cannotEvict = false
    ∧ (fc.cannotEvict = true →
        (fc.getCache p).2.cannotEvict = true
        ∧ (fc.putCache press p e).cannotEvict = true
        ∧ (fc.inCache p).2.cannotEvict = true
        ∧ fc.resetStats.cannotEvict = true) := by
  refine ⟨?_, ?_, updateCache_cannotEvict fc ds, ?_⟩
  · intro h
    simp [FileCache.maybeFreeMemory, h]
  · intro hp hf h0
    subst hp
    simp [FileCache.maybeFreeMemory, hf, h0]
  · intro h
    refine ⟨?_, ?_, ?_, ?_⟩
    · simp [FileCache.getCache, h]
    · simp [FileCache.putCache, FileCache.maybeFreeMemory, h]
    · simp [FileCache.inCache, FileCache.getCache, h]
    · simpa [FileCache.resetStats] using h

/-- Concrete file cache with the sticky flag set, for the C5 witness. -/
def stuckCache : FileCache Nat :=
  ⟨⟨[("p", ⟨"d", 5⟩)], ⟨0, 0, 0⟩⟩, [("p", "d")], true⟩

/-- Concrete file cache under full pinning, for the C5 witness: one
entry, pinned by `lastDigests`. -/
def pinnedCache : FileCache Nat :=
  ⟨⟨[("p", ⟨"d", 5⟩)], ⟨0, 0, 0⟩⟩, [("p", "d")], false⟩

theorem claim_C5_cannot_evict_guard_witness :
    stuckCache.maybeFreeMemory true = (0, stuckCache)
    ∧ (pinnedCache.maybeFreeMemory true).2.cannotEvict = true
    ∧ (stuckCache.updateCache [("p", "d")]).cannotEvict = false
    ∧ (stuckCache.getCache "p").2.cannotEvict = true :=
  ⟨(claim_C5_cannot_evict_guard stuckCache true [("p", "d")] "p" ⟨"d", 5⟩).1 rfl,
   ((claim_C5_cannot_evict_guard pinnedCache true [("p", "d")] "p" ⟨"d", 5⟩).2.1)
     rfl rfl
     (by norm_num [pinnedCache, Cache.evict, evictLoop, jsKeys, jsDelete,
          unevictable]),
   (claim_C5_cannot_evict_guard stuckCache true [("p", "d")] "p" ⟨"d", 5⟩).2.2.1,
   ((claim_C5_cannot_evict_guard stuckCache true [("p", "d")] "p" ⟨"d", 5⟩).2.2.2
     rfl).1⟩

/-- File cache obtained by registering path `p` with the empty-string
digest, for the C6 counterexample. -/
def emptyDigestCache : FileCache Nat :=
  (FileCache.init).updateCache [("p", "")]

/-- C6 counterexample: the claim says `getLastDigest` fails only for
paths never registered by the most recent `updateCache`.  But the source
guards with `if (!digest)`, and the empty string is falsy in JavaScript:
after `updateCache({p: ""})` the path `p` is registered with digest `""`
yet `getLastDigest(p)` still throws. -/
theorem claim_C6_counterexample :
    jsGet "p" emptyDigestCache.lastDigests = some ""
    ∧ emptyDigestCache.getLastDigest "p" = .error ⟨"p", ["p"]⟩ := by
  constructor <;> rfl

/-- C6 amended: `getLastDigest(path)` fails with the missing-digest
error exactly when `path` is absent from the digests of the most recent
`updateCache` or its registered digest is the empty string (JavaScript
falsiness); every path registered with a non-empty digest gets that
digest back without failing. -/
theorem claim_C6_amended (fc : FileCache V) (ds : List (String × String))
    (P : String) :
    ((fc.updateCache ds).getLastDigest P = .error ⟨P, jsKeys ds⟩
      ↔ (jsGet P ds = none ∨ jsGet P ds = some ""))
    ∧ (∀ D, jsGet P ds = some D → D ≠ "" →
        (fc.updateCache ds).getLastDigest P = .ok D) := by
  have hld := updateCache_lastDigests fc ds
  constructor
  · simp only [FileCache.getLastDigest, hld]
    cases hg : jsGet P ds with
    | none => simp
    | some d =>
        by_cases hd : d = ""
        · subst hd; simp
        · simp [hd]
  · intro D hD hne
    simp only [FileCache.getLastDigest, hld, hD]
    simp [hne]

theorem claim_C6_amended_witness :
    (((FileCache.init : FileCache Nat).updateCache [("q", "dq")]).getLastDigest "q"
        = .error ⟨"q", jsKeys [("q", "dq")]⟩
      ↔ (jsGet "q" [("q", "dq")] = none ∨ jsGet "q" [("q", "dq")] = some ""))
    ∧ ((FileCache.init : FileCache Nat).updateCache [("q", "dq")]).getLastDigest "q"
        = .ok "dq" :=
  ⟨(claim_C6_amended FileCache.init [("q", "dq")] "q").1,
   (claim_C6_amended FileCache.init [("q", "dq")] "q").2 "dq" (by decide)
     (by decide)⟩

/-! ### Stats lemmas for operation sequences -/

theorem Cache.evict_hits (c : Cache V) (pins : Option (List String)) :
    (c.evict pins).2.stats.hits = c.stats.hits := by
  by_cases hz : ((c.map.length : ℚ) / 2 = 0) <;> simp [Cache.evict, hz]

theorem Cache.evict_reads (c : Cache V) (pins : Option (List String)) :
    (c.evict pins).2.stats.reads = c.stats.reads := by
  by_cases hz : ((c.map.length : ℚ) / 2 = 0) <;> simp [Cache.evict, hz]

theorem Cache.get_hits_invariant (c : Cache V) (k : String) (u : Bool)
    (h : c.stats.hits ≤ c.stats.reads) :
    (c.get k u).2.stats.hits ≤ (c.get k u).2.stats.reads := by
  rw [Cache.get_reads]
  cases u with
  | false => exact Nat.le_succ_of_le h
  | true =>
      cases hg : jsGet k c.map with
      | none =>
          have : (c.get k true).2.stats.hits = c.stats.hits := by
            simp [Cache.get, hg]
          rw [this]
          exact Nat.le_succ_of_le h
      | some e =>
          rw [Cache.get_hits_hit hg]
          exact Nat.succ_le_succ h

theorem CacheOp.apply_hits_le {c : Cache V} (op : CacheOp V)
    (h : c.stats.hits ≤ c.stats.reads) :
    (CacheOp.apply c op).stats.hits ≤ (CacheOp.apply c op).stats.reads := by
  cases op with
  | setOp k v => simpa [CacheOp.apply, Cache.set] using h
  | getOp k u => exact Cache.get_hits_invariant c k u h
  | deleteOp k => simpa [CacheOp.apply, Cache.delete] using h
  | evictOp pins =>
      simpa [CacheOp.apply, Cache.evict_hits, Cache.evict_reads] using h
  | resetStatsOp => simp [CacheOp.apply, Cache.resetStats]

theorem runOps_hits_le :
    ∀ (ops : List (CacheOp V)) (c : Cache V),
      c.stats.hits ≤ c.stats.reads →
      (runOps c ops).stats.hits ≤ (runOps c ops).stats.reads := by
  intro ops
  induction ops with
  | nil => intro c h; exact h
  | cons op rest ih => intro c h; exact ih _ (CacheOp.apply_hits_le op h)

/-- C8: from a fresh cache, `hits ≤ reads` holds after every sequence of
operations (each `get` bumps `reads`, and `hits` only on a hit);
`resetStats` zeroes all three counters while leaving the stored entries
untouched, so a `get` immediately afterwards can still hit (and then
shows `hits = 1`). -/
theorem claim_C8_stats_invariant (ops : List (CacheOp V)) (c : Cache V)
    (k : String) (u : Bool) (v : V) :
    ((runOps Cache.init ops).stats.hits ≤ (runOps Cache.init ops).stats.reads)
    ∧ (c.get k u).2.stats.reads = c.stats.reads + 1
    ∧ (c.resetStats.map = c.map ∧ c.resetStats.stats = ⟨0, 0, 0⟩)
    ∧ (jsGet k c.map = some v →
        (c.resetStats.get k true).1 = some v
        ∧ (c.resetStats.get k true).2.stats.hits = 1) := by
  refine ⟨runOps_hits_le ops Cache.init (Nat.le_refl 0),
    Cache.get_reads c k u, ⟨rfl, rfl⟩, ?_⟩
  intro hv
  have hv' : jsGet k c.resetStats.map = some v := hv
  constructor
  · rw [Cache.get_fst]
    exact hv'
  · rw [Cache.get_hits_hit hv']
    rfl

/-- Concrete cache with one stored entry, for the C8 witness. -/
def statsCache : Cache Nat := ⟨[("s", 9)], ⟨3, 2, 0⟩⟩

theorem claim_C8_stats_invariant_witness :
    ((runOps (Cache.init : Cache Nat) [CacheOp.getOp "s" true]).stats.hits
       ≤ (runOps (Cache.init : Cache Nat) [CacheOp.getOp "s" true]).stats.reads)
    ∧ (statsCache.get "s" true).2.stats.reads = statsCache.stats.reads + 1
    ∧ (statsCache.resetStats.map = statsCache.map
       ∧ statsCache.resetStats.stats = ⟨0, 0, 0⟩)
    ∧ ((statsCache.resetStats.get "s" true).1 = some 9
       ∧ (statsCache.resetStats.get "s" true).2.stats.hits = 1) :=
  ⟨(claim_C8_stats_invariant [CacheOp.getOp "s" true] statsCache "s" true 9).1,
   (claim_C8_stats_invariant [CacheOp.getOp "s" true] statsCache "s" true 9).2.1,
   (claim_C8_stats_invariant [CacheOp.getOp "s" true] statsCache "s" true 9).2.2.1,
   (claim_C8_stats_invariant [CacheOp.getOp "s" true] statsCache "s" true
     9).2.2.2 (by decide)⟩

/-- Concrete entries and two-entry file cache (key `a` least recently
used) for C10. -/
def probeA : FileCacheEntry Nat := ⟨"da", 1⟩

def probeB : FileCacheEntry Nat := ⟨"db", 2⟩

def probeCache : FileCache Nat :=
  ⟨⟨[("a", probeA), ("b", probeB)], ⟨0, 0, 0⟩⟩, [], false⟩

/-- C10: `getCache` and `inCache` are not observation-free: each bumps
the file store reads counter; on a present path each also bumps `hits`
and moves the entry to the most recently used position; concretely, an
unpinned `evict` on `probeCache` removes `a` first, but after
`inCache("a")` the same `evict` removes `b` and keeps `a`. -/
theorem claim_C10_observation_effects (fc : FileCache V) (p : String) :
    ((fc.getCache p).2.fileCache.stats.reads = fc.fileCache.stats.reads + 1
     ∧ (fc.inCache p).2.fileCache.stats.reads = fc.fileCache.stats.reads + 1)
    ∧ (∀ e, jsGet p fc.fileCache.map = some e →
        (fc.inCache p).2.fileCache.stats.hits = fc.fileCache.stats.hits + 1
        ∧ (fc.inCache p).2.fileCache.map = jsSet p e (jsDelete p fc.fileCache.map))
    ∧ ((probeCache.fileCache.evict none).2.map = [("b", probeB)]
       ∧ ((probeCache.inCache "a").2.fileCache.evict none).2.map
           = [("a", probeA)]) := by
  refine ⟨⟨?_, ?_⟩, ?_, ?_, ?_⟩
  · simp [FileCache.getCache, Cache.get_reads]
  · simp [FileCache.inCache, FileCache.getCache, Cache.get_reads]
  · intro e he
    constructor
    · simp [FileCache.inCache, FileCache.getCache, Cache.get_hits_hit he]
    · simp [FileCache.inCache, FileCache.getCache, Cache.get_map_hit he]
  · norm_num [probeCache, Cache.evict, evictLoop, jsKeys, jsDelete, unevictable]
  · have h1 : (probeCache.inCache "a").2.fileCache
        = ⟨[("b", probeB), ("a", probeA)], ⟨1, 1, 0⟩⟩ := by decide
    rw [h1]
    norm_num [probeA, probeB, Cache.evict, evictLoop, jsKeys, jsDelete,
      unevictable]

theorem claim_C10_observation_effects_witness :
    (probeCache.inCache "a").2.fileCache.stats.hits
      = probeCache.fileCache.stats.hits + 1
    ∧ (probeCache.inCache "a").2.fileCache.map
      = jsSet "a" probeA (jsDelete "a" probeCache.fileCache.map) :=
  (claim_C10_observation_effects probeCache "a").2.1 probeA (by decide)

/-- C9: a cached load of a path with no cached entry and no registered
digest reads the disk and parses first, then fails from `getLastDigest`
(the events end there, with nothing stored), leaving the file store
entries unchanged. -/
theorem claim_C9_missing_digest_load (fc : FileCache SourceFile) (disk : Disk)
    (press : Bool) (fileName filePath : String) (langVer : Nat)
    (hmiss : jsGet filePath fc.fileCache.map = none)
    (hunreg : jsGet filePath fc.lastDigests = none) :
    (CachedFileLoader.loadFile fc disk press fileName filePath langVer).result
      = .error ⟨filePath, jsKeys fc.lastDigests⟩
    ∧ (CachedFileLoader.loadFile fc disk press fileName filePath langVer).events
      = [.diskRead filePath, .parsed fileName]
    ∧ (CachedFileLoader.loadFile fc disk press fileName filePath
        langVer).cache.fileCache.map = fc.fileCache.map := by
  have hfst : (fc.getCache filePath).1 = none := by
    simp [FileCache.getCache, Cache.get_fst, hmiss]
  have hld : (fc.getCache filePath).2.lastDigests = fc.lastDigests := by
    simp [FileCache.getCache]
  have herr : (fc.getCache filePath).2.getLastDigest filePath
      = .error ⟨filePath, jsKeys fc.lastDigests⟩ := by
    simp only [FileCache.getLastDigest, hld, hunreg]
  have hmap : (fc.getCache filePath).2.fileCache.map = fc.fileCache.map := by
    simp [FileCache.getCache, Cache.get_map_miss hmiss]
  simp only [CachedFileLoader.loadFile, hfst, herr]
  exact ⟨trivial, trivial, hmap⟩

/-- Concrete disk assigning the same contents to every path. -/
def orphanDisk : Disk := fun _ => "text"

theorem claim_C9_missing_digest_load_witness :
    (CachedFileLoader.loadFile FileCache.init orphanDisk false "f.ts" "f"
        0).result = .error ⟨"f", []⟩
    ∧ (CachedFileLoader.loadFile FileCache.init orphanDisk false "f.ts" "f"
        0).events = [.diskRead "f", .parsed "f.ts"]
    ∧ (CachedFileLoader.loadFile FileCache.init orphanDisk false "f.ts" "f"
        0).cache.fileCache.map = FileCache.init.fileCache.map :=
  claim_C9_missing_digest_load FileCache.init orphanDisk false "f.ts" "f" 0
    rfl rfl

/-- Concrete disk for the C7 counterexample. -/
def blankDisk : Disk := fun _ => "contents"

/-- File cache that registered path `p` with the empty-string digest. -/
def blankRegCache : FileCache SourceFile :=
  (FileCache.init).updateCache [("p", "")]

/-- C7 counterexample: the claim promises identical parsed output for
every path registered via `updateCache`.  Registering `p` with the
empty-string digest satisfies that hypothesis (and `p` has no cached
entry, so the staleness proviso holds vacuously), yet the cached loader
throws from `getLastDigest` (the `if (!digest)` falsy check) while the
uncached loader returns the parsed file. -/
theorem claim_C7_counterexample :
    jsGet "p" blankRegCache.lastDigests = some ""
    ∧ jsGet "p" blankRegCache.fileCache.map = none
    ∧ (CachedFileLoader.loadFile blankRegCache blankDisk false "p" "p" 0).result
        ≠ .ok (UncachedFileLoader.loadFile blankDisk "p" "p" 0) := by
  refine ⟨rfl, rfl, ?_⟩
  have h : (CachedFileLoader.loadFile blankRegCache blankDisk false "p" "p"
      0).result = .error ⟨"p", ["p"]⟩ := rfl
  rw [h]
  exact fun hc => Except.noConfusion hc

/-- C7 amended: for every path registered with a non-empty digest, and
whose cached entry (if any) was parsed from the current disk contents,
the cached and uncached loaders return the same parsed source file. -/
theorem claim_C7_amended (fc : FileCache SourceFile) (disk : Disk)
    (press : Bool) (fileName filePath : String) (langVer : Nat) (D : String)
    (hreg : jsGet filePath fc.lastDigests = some D) (hD : D ≠ "")
    (hcoh : ∀ e, jsGet filePath fc.fileCache.map = some e →
        e.value = createSourceFile fileName (disk filePath) langVer) :
    (CachedFileLoader.loadFile fc disk press fileName filePath langVer).result
      = .ok (UncachedFileLoader.loadFile disk fileName filePath langVer) := by
  cases hg : jsGet filePath fc.fileCache.map with
  | some e =>
      have hfst : (fc.getCache filePath).1 = some e.value := by
        simp [FileCache.getCache, Cache.get_fst, hg]
      simp only [CachedFileLoader.loadFile, hfst]
      rw [hcoh e hg]
      rfl
  | none =>
      have hfst : (fc.getCache filePath).1 = none := by
        simp [FileCache.getCache, Cache.get_fst, hg]
      have hld : (fc.getCache filePath).2.lastDigests = fc.lastDigests := rfl
      have hok : (fc.getCache filePath).2.getLastDigest filePath = .ok D := by
        simp only [FileCache.getLastDigest, hld, hreg]
        simp [hD]
      simp only [CachedFileLoader.loadFile, hfst, hok]
      rfl

/-- Concrete disk and coherent one-entry cache for the C7 witness. -/
def cohDisk : Disk := fun _ => "src"

def cohCache : FileCache SourceFile :=
  ⟨⟨[("p", ⟨"d", createSourceFile "p.ts" "src" 1⟩)], ⟨0, 0, 0⟩⟩,
    [("p", "d")], false⟩

theorem claim_C7_amended_witness :
    (CachedFileLoader.loadFile cohCache cohDisk false "p.ts" "p" 1).result
      = .ok (UncachedFileLoader.loadFile cohDisk "p.ts" "p" 1) :=
  claim_C7_amended cohCache cohDisk false "p.ts" "p" 1 "d" rfl (by decide)
    (by
      intro e he
      injection he with h
      rw [← h]
      rfl)

end TscWrapped
